import Mathlib

/-!
Verification development for the TB-Python-SQL-Pull repository.

Shallow embedding of:
  * `rds_query_utils.py` — `build_schema`, `build_query` (the schema/query compiler);
  * `rds_processor.py`   — `RDS.check_schema` and the deduplication step of
    `RDS.query_to_df`;
  * `s3_bucket_util.py`  — `monitor_and_maintain_archive_limit` (archive rotation).

Python dicts with known keys become structures; a Python "field" dict of
column-to-output-name pairs becomes an insertion-ordered association list
`List (String × String)`; `None`-able parameters become `Option`; code that can
raise returns `Except String`.  Machine behaviour that cannot fire on
structurally well-formed inputs (KeyError on descriptor dicts) has no
counterpart here, so those `try/except` blocks contribute no error branches.
-/

/-! ## Data model (`query_package.py` shapes)

A Source descriptor dict `{'table', 'name', 'fields', 'project', 'order'}` and a
join-list item dict `{'name', 'single_or_repeat', 'data_source', 'question_id',
'fields', 'clean'}`.  The `clean` key is never read by the compiler and is
omitted.  `fields` is a list of dicts; each dict is an ordered list of
`(source_column, output_name)` pairs. -/

structure Source where
  table : String
  name : String
  fields : List (List (String × String))
  project : Nat
  order : String
deriving DecidableEq, Repr

structure JoinItem where
  name : String
  single_or_repeat : String
  data_source : String
  question_id : Nat
  fields : List (List (String × String))
deriving DecidableEq, Repr

/-! ## `rds_query_utils.build_schema` (lines 163-233) -/

/-- Embedding of `build_schema(source, join_list, schema, exclude)`:
branch one concatenates every output name from the source fields then from each
join item's fields; branch two passes a manually supplied schema through; any
other combination leaves the empty list; finally the `exclude` filter is
applied. -/
def build_schema (source : Option Source) (join_list : Option (List JoinItem))
    (schema : Option (List String)) (exclude : Option (List String)) : List String :=
  let schema_lst : List String :=
    match schema, source, join_list with
    | none, some src, some jl =>
        (src.fields.flatMap fun field => field.map fun p => p.2)
          ++ jl.flatMap fun item => item.fields.flatMap fun field => field.map fun p => p.2
    | some s, none, none => s
    | _, _, _ => []
  match exclude with
  | none => schema_lst
  | some ex => schema_lst.filter fun field => decide (field ∉ ex)

/-! ## `rds_query_utils.build_query` (lines 238-379) -/

/-- The bridge-table alias: `initial_join_answers` for the first join item,
`join_answers_<n>` afterwards.  In the source the numbering comes from the
mutable `join_count`, which equals the item's position for every position ≥ 1
(it starts at 1 and is bumped once per non-initial item); `joins_aux` below
keeps the counter explicit and `joins_aux_eq` relates the two. -/
def data_conn (index : Nat) : String :=
  if index = 0 then "initial_join_answers" else "join_answers_" ++ toString index

/-- The two `LEFT JOIN` lines emitted for one join item (lines 334-343), given
the bridge alias `dc` chosen for it.  An item whose `single_or_repeat` is
neither `'SINGLE'` nor `'REPEATING'` silently contributes nothing, exactly as
the `if/elif` with no `else` does. -/
def join_clause (item : JoinItem) (dc : String) : String :=
  if item.single_or_repeat = "SINGLE" then
    "\nLEFT JOIN application_data_answer " ++ dc ++ " ON app.id = " ++ dc ++
      ".application_id AND " ++ dc ++ ".question_id = " ++ toString item.question_id ++
    "\nLEFT JOIN " ++ item.data_source ++ " " ++ item.name ++ " ON " ++ dc ++ ".id = " ++
      item.name ++ ".answer_ptr_id\n"
  else if item.single_or_repeat = "REPEATING" then
    "\nLEFT JOIN application_data_answer " ++ dc ++
      " ON initial_join_answers.repeating_answer_section_id = " ++ dc ++
      ".repeating_answer_section_id AND " ++ dc ++ ".question_id = " ++
      toString item.question_id ++
    "\nLEFT JOIN " ++ item.data_source ++ " " ++ item.name ++ " ON " ++ dc ++ ".id = " ++
      item.name ++ ".answer_ptr_id\n"
  else ""

/-- The `#Add Joins` loop (lines 322-343): walks the join list carrying the
enumeration index and the mutable `join_count`. -/
def joins_aux : List JoinItem → Nat → Nat → String
  | [], _, _ => ""
  | item :: rest, index, join_count =>
      let dc := if index = 0 then "initial_join_answers"
                else "join_answers_" ++ toString join_count
      let jc := if index = 0 then join_count else join_count + 1
      join_clause item dc ++ joins_aux rest (index + 1) jc

def join_section (join_list : List JoinItem) : String := joins_aux join_list 0 1

/-- The join clause an item receives at list position `index`. -/
def clause_at (item : JoinItem) (index : Nat) : String := join_clause item (data_conn index)

/-- Select-list lines for the source fields (lines 286-288), threaded through
the accumulating query string. -/
def source_select (src : Source) (query : String) : String :=
  src.fields.foldl (fun q field =>
    field.foldl (fun q2 p =>
      q2 ++ "    " ++ src.name ++ "." ++ p.1 ++ " AS " ++ p.2 ++ ",\n") q) query

/-- Select-list lines for the join fields (lines 297-304).  The trailing comma
is dropped whenever the item is the last of the list and the current field dict
equals the item's last field dict — the source compares whole dicts, so every
entry of the last dict of the last item loses its comma. -/
def join_select (join_list : List JoinItem) (query : String) : String :=
  join_list.enum.foldl (fun q ip =>
    ip.2.fields.foldl (fun q2 field =>
      field.foldl (fun q3 p =>
        if ip.1 = join_list.length - 1 ∧ some field = ip.2.fields.getLast? then
          q3 ++ "    " ++ ip.2.name ++ "." ++ p.1 ++ " AS " ++ p.2 ++ "\n"
        else
          q3 ++ "    " ++ ip.2.name ++ "." ++ p.1 ++ " AS " ++ p.2 ++ ",\n") q2) q) query

/-- The full first branch of `build_query`: SELECT list, FROM, join clauses,
WHERE project filter, ORDER BY.  The final
`codecs.decode(query.encode(), 'unicode_escape')` (line 369) is the identity on
every string free of backslash escape sequences — all compiler output whose
descriptor fields contain no backslash, the newlines being real newlines
already — and is therefore not represented. -/
def compiled_query (src : Source) (join_list : List JoinItem) : String :=
  let q := "SELECT\n"
  let q := source_select src q
  let q := join_select join_list q
  let q := q ++ "\nFROM\n" ++ "    " ++ src.table ++ " " ++ src.name ++ "\n"
  let q := q ++ join_section join_list
  let q := q ++ "\n WHERE \n" ++ "    " ++ src.name ++ ".project_id = " ++ toString src.project
  let q := q ++ "\n ORDER BY\n" ++ src.name ++ "." ++ src.order ++ ";"
  q

/-- Embedding of `build_query(source, join_list, query)` (lines 238-379).  The
first branch fires only for `query is None` with both descriptors present; the
raise sites inside it concern malformed descriptor dicts, which cannot occur
for the typed descriptors, so it always succeeds.  Every other input
combination falls through to `return query` unchanged — the source has no
branch raising for "both supplied" or "neither supplied". -/
def build_query (source : Option Source) (join_list : Option (List JoinItem))
    (query : Option String) : Except String (Option String) :=
  match query, source, join_list with
  | none, some src, some jl => .ok (some (compiled_query src jl))
  | q, _, _ => .ok q

/-! ## `rds_processor.RDS.check_schema` (lines 127-175) -/

/-- A materialized result table: named columns plus row-major data. -/
structure DF where
  columns : List String
  rows : List (List String)
deriving DecidableEq, Repr

/-- `df.empty` in pandas: true when either axis has length zero. -/
def DF.empty (df : DF) : Bool := df.rows.isEmpty || df.columns.isEmpty

/-- One turn of the `for field in self.schema` loop (lines 165-170): a field
absent from the columns flips the check to false and appends the field to the
missing list. -/
def schema_check_step (columns : List String) (acc : Bool × List String)
    (field : String) : Bool × List String :=
  if field ∈ columns then acc else (false, acc.2 ++ [field])

/-- Embedding of `RDS.check_schema(df)` (lines 158-175): `fields_missing` is the
instance state the loop appends to; the result carries the final check flag and
the final missing-field list. -/
def check_schema (schema : List String) (fields_missing : List String) (df : DF) :
    Except String (Bool × List String) :=
  if df.empty = false then
    .ok (schema.foldl (schema_check_step df.columns) (true, fields_missing))
  else
    .error "Error: Dataframe Empty When Checking Schema"

/-! ## Deduplication step of `rds_processor.RDS.query_to_df` (lines 224-237) -/

/-- `DataFrame.drop_duplicates()` with the default `keep='first'`: keep the
first occurrence of each row, in original order. -/
def drop_duplicates_aux : List (List String) → List (List String) → List (List String)
  | _, [] => []
  | seen, r :: rest =>
      if r ∈ seen then drop_duplicates_aux seen rest
      else r :: drop_duplicates_aux (r :: seen) rest

def drop_duplicates (rows : List (List String)) : List (List String) :=
  drop_duplicates_aux [] rows

/-- `df[df.duplicated()]` with the default `keep='first'`: the rows identical to
some earlier row, in original order. -/
def duplicated_rows_aux : List (List String) → List (List String) → List (List String)
  | _, [] => []
  | seen, r :: rest =>
      if r ∈ seen then r :: duplicated_rows_aux (r :: seen) rest
      else duplicated_rows_aux (r :: seen) rest

def duplicated_rows (rows : List (List String)) : List (List String) :=
  duplicated_rows_aux [] rows

/-- The two statements at lines 225 and 228, in source order:
`data = data.drop_duplicates()` and then `self.duplicates = data[data.duplicated()]`
— the duplicated-row extraction runs on the already-deduplicated frame.
Returns `(self.df, self.duplicates)`. -/
def dedup_step (data : List (List String)) : List (List String) × List (List String) :=
  let data2 := drop_duplicates data
  (data2, duplicated_rows data2)

/-! ## `s3_bucket_util.monitor_and_maintain_archive_limit` (lines 218-310)

The object store is abstracted as a state type with two operations, matching
what the rotation loop observes: listing the immediate sub-folders of the
archive (each with the last-modified stamps of its contained objects, the data
the per-folder `list_objects_v2` calls feed into `min`) and deleting a
sub-folder key.  The loop's observable effects are the keys it deletes and the
raises, recorded in `RotOutcome`. -/

structure Folder where
  key : String
  objects : List Nat
deriving DecidableEq, Repr

structure S3Store (σ : Type) where
  listSubfolders : σ → List Folder
  deleteObject : σ → String → σ

/-- The loop's outcomes.  `stuck` and `corrupt` are the two `raise` sites
(lines 279 and 294); `keyError` is the uncaught `KeyError` at line 309, where
`subfolders = result['CommonPrefixes']` runs with no presence guard after a
deletion — when the deletion has emptied the archive the listing omits
`CommonPrefixes` and the subscript crashes. -/
inductive RotOutcome (σ : Type) where
  | ok (state : σ) (deleted : List String)
  | stuck (deleted : List String)
  | corrupt (msg : String) (deleted : List String)
  | keyError (deleted : List String)
deriving DecidableEq

/-- `max_iterations = 150` (line 271). -/
def max_iterations : Nat := 150

/-- The `folder_dates` computation (lines 282-294): for each sub-folder in
listing order, the minimum last-modified stamp of its contents; a sub-folder
with no contents raises. -/
def folder_dates : List Folder → Except String (List (String × Nat))
  | [] => .ok []
  | f :: rest =>
      match f.objects with
      | [] => .error ("Error: Contents not found in Folder List in " ++ f.key)
      | t :: ts =>
          match folder_dates rest with
          | .error e => .error e
          | .ok ds => .ok ((f.key, ts.foldl Nat.min t) :: ds)

/-- The minimum last-modified stamp of a folder's objects (value of
`min(contents, key=LastModified)['LastModified']`); 0 only on the
empty-contents case the source raises on. -/
def oldestTime (f : Folder) : Nat :=
  match f.objects with
  | [] => 0
  | t :: ts => ts.foldl Nat.min t

/-- Lines 297-298: `folder_dates.sort(key=lambda x: x[1])` followed by
`folder_dates[0][0]` — a stable sort by date and the head's key; indexing an
empty list would raise, which cannot happen while the loop guard holds. -/
def select_head (dates : List (String × Nat)) : Except String String :=
  match dates.mergeSort (fun a b => a.2 ≤ b.2) with
  | [] => .error "Error: folder_dates[0] out of range"
  | d :: _ => .ok d.1

/-- One pass of the loop body up to the choice of `oldest_folder_key`
(lines 282-298): build `folder_dates`, then sort and take the head. -/
def select_oldest (subfolders : List Folder) : Except String String :=
  match folder_dates subfolders with
  | .error msg => .error msg
  | .ok dates => select_head dates

/-- The `while folder_count > limit` loop (lines 274-310).  The source bumps an
`iteration_counter` each pass and raises when it exceeds `max_iterations`;
here `fuel` is the remaining allowance `max_iterations - iteration_counter`
(initially `max_iterations`), so exhausted fuel on a pass whose count still
exceeds the limit is exactly the `iteration_counter > max_iterations` raise.
Each pass selects the sub-folder with the oldest object, deletes its key, then
re-lists from the store as lines 308-310 do; `subfolders` carries the listing
the loop condition and body read.  Line 309 subscripts `'CommonPrefixes'` on
the fresh listing with no guard, so a deletion that empties the archive makes
the pass end in `keyError` instead of looping back to the condition. -/
def rotation_go {σ : Type} (store : S3Store σ) (limit : Nat) :
    Nat → List Folder → σ → List String → RotOutcome σ
  | 0, subfolders, state, deleted =>
      if subfolders.length > limit then .stuck deleted else .ok state deleted
  | fuel + 1, subfolders, state, deleted =>
      if subfolders.length > limit then
        match select_oldest subfolders with
        | .error msg => .corrupt msg deleted
        | .ok key =>
            let state2 := store.deleteObject state key
            let subfolders2 := store.listSubfolders state2
            if subfolders2 = [] then .keyError (deleted ++ [key])
            else rotation_go store limit fuel subfolders2 state2 (deleted ++ [key])
      else .ok state deleted

/-- Embedding of `monitor_and_maintain_archive_limit`: list the sub-folders
once; `'CommonPrefixes' in result` holds exactly when that listing is
non-empty; otherwise the function is a no-op. -/
def monitor_and_maintain_archive_limit {σ : Type} (store : S3Store σ) (limit : Nat)
    (s0 : σ) : RotOutcome σ :=
  let subfolders := store.listSubfolders s0
  if subfolders.length > 0 then rotation_go store limit max_iterations subfolders s0 []
  else .ok s0 []

/-- The store of claim C7's hypotheses: listings report exactly the current
folder set, and deleting a sub-folder key removes that sub-folder from every
later listing. -/
def faithful_store : S3Store (List Folder) where
  listSubfolders := fun s => s
  deleteObject := fun s key => s.filter fun f => f.key ≠ key

/-- The deletion discipline claim C7 describes: each deleted key belongs to a
sub-folder whose oldest object is no later than that of any sub-folder still
present, and the remaining steps continue on the folder set without it. -/
inductive StepwiseEarliest : List Folder → List String → Prop
  | nil (fs : List Folder) : StepwiseEarliest fs []
  | cons (fs : List Folder) (f : Folder) (ds : List String) :
      f ∈ fs →
      (∀ g ∈ fs, oldestTime f ≤ oldestTime g) →
      StepwiseEarliest (fs.filter fun g => g.key ≠ f.key) ds →
      StepwiseEarliest fs (f.key :: ds)

/-- Three archive sub-folders with distinct keys and distinct oldest stamps. -/
def demo_folders : List Folder :=
  [{ key := "a", objects := [3] }, { key := "b", objects := [1] }, { key := "c", objects := [2] }]

/-- An archive state holding `max_iterations + 1` sub-folders over a limit of
zero: one more excess folder than the loop's iteration allowance. -/
def stuck_folders : List Folder :=
  (List.range (max_iterations + 1)).map fun i =>
    { key := String.mk (List.replicate (i + 1) 'a'), objects := [i] }

/-- A pathological store stub whose listing never shrinks: every listing shows
one non-empty sub-folder and deletions do not change the state. -/
def stuckStore : S3Store Unit where
  listSubfolders := fun _ => [{ key := "A", objects := [0] }]
  deleteObject := fun _ _ => ()

/-! ## Concrete descriptors used by witnesses and counterexamples -/

def exSource : Source :=
  { table := "applications_application", name := "app",
    fields := [[("application_number", "application_number"), ("created_at", "created_at")]],
    project := 34, order := "id" }

/-- A source descriptor whose declared alias is `src`, not `app`. -/
def cexSource : Source :=
  { table := "applications_application", name := "src",
    fields := [[("application_number", "application_number")]], project := 34, order := "id" }

def exSingle : JoinItem :=
  { name := "hotel_name", single_or_repeat := "SINGLE",
    data_source := "application_data_textboxanswer", question_id := 10,
    fields := [[("value", "x")]] }

def exRepeating : JoinItem :=
  { name := "hotel_status", single_or_repeat := "REPEATING",
    data_source := "application_data_singleselectanswer", question_id := 1013,
    fields := [[("value", "hotel_status")]] }

/-! ## Claim C1 — deduplication and the Duplicate Table -/

/-- Claim C1 (code bug witness): on a validated table holding two identical
rows, the deduplication step of `RDS.query_to_df` keeps one row but stores an
empty Duplicate Table, because `data.duplicated()` is evaluated only after
`data.drop_duplicates()` has already removed every repeat; the rows actually
removed (`duplicated_rows` of the original data) are `[["x"]]`. -/
theorem duplicate_table_empty_on_duplicate_rows :
    dedup_step [["x"], ["x"]] = ([["x"]], []) ∧ duplicated_rows [["x"], ["x"]] = [["x"]] := by
  decide

/-! ## Claim C2 — literal query plus descriptors supplied together -/

/-- Claim C2 (counterexample): with both a literal query and a full
source/join-list descriptor pair supplied, `build_query` raises nothing and
silently returns the literal query. -/
theorem build_query_both_inputs_cex :
    build_query (some exSource) (some [exSingle]) (some "SELECT 1;") = .ok (some "SELECT 1;") :=
  rfl

/-- Claim C2 (amended): for every source, join list and literal query supplied
simultaneously, `build_query` returns the literal query unchanged and raises no
error. -/
theorem build_query_both_inputs_passthrough (src : Source) (jl : List JoinItem) (q : String) :
    build_query (some src) (some jl) (some q) = .ok (some q) :=
  rfl

/-! ## Claim C6 — neither descriptors nor literal query supplied -/

/-- Claim C6 (counterexample): with neither a descriptor pair nor a literal
query, `build_query` raises no configuration error; it returns the unchanged
`None` query. -/
theorem build_query_no_inputs_cex : build_query none none none = .ok none :=
  rfl

/-- Claim C6 (amended): whenever the literal query is absent and the descriptor
pair is incomplete, `build_query` falls through both branches and returns
`None` without raising. -/
theorem build_query_incomplete_inputs_passthrough (source : Option Source)
    (join_list : Option (List JoinItem)) (h : source = none ∨ join_list = none) :
    build_query source join_list none = .ok none := by
  rcases h with h | h
  · subst h; cases join_list <;> rfl
  · subst h; cases source <;> rfl

theorem build_query_incomplete_inputs_passthrough_witness :
    build_query none (some []) none = .ok none :=
  build_query_incomplete_inputs_passthrough none (some []) (Or.inl rfl)

/-! ## Claim C5 — compiled schema list -/

/-- Claim C5: with no exclusion list, the compiled schema list is exactly the
concatenation, in source-then-join order, of every declared output name, and
its length is the total count of declared output fields across the source and
all join items. -/
theorem build_schema_order_and_length (src : Source) (jl : List JoinItem) :
    build_schema (some src) (some jl) none none =
      (src.fields.flatMap fun field => field.map fun p => p.2)
        ++ jl.flatMap (fun item => item.fields.flatMap fun field => field.map fun p => p.2)
    ∧ (build_schema (some src) (some jl) none none).length =
        (src.fields.map List.length).sum
          + (jl.map fun item => (item.fields.map List.length).sum).sum := by
  constructor
  · rfl
  · show ((src.fields.flatMap fun field => field.map fun p => p.2)
        ++ jl.flatMap (fun item => item.fields.flatMap fun field => field.map fun p => p.2)).length
      = _
    simp [List.length_flatMap, Function.comp_def, List.length_map]

/-! ## Claims C9 and C10 — schema validation -/

lemma foldl_schema_all_present (cols : List String) :
    ∀ (s : List String) (acc : Bool × List String), (∀ f ∈ s, f ∈ cols) →
      s.foldl (schema_check_step cols) acc = acc := by
  intro s
  induction s with
  | nil => intro acc _; rfl
  | cons f rest ih =>
      intro acc h
      have hf : f ∈ cols := h f (List.mem_cons_self f rest)
      simp only [List.foldl_cons, schema_check_step, if_pos hf]
      exact ih acc fun g hg => h g (List.mem_cons_of_mem f hg)

lemma foldl_schema_one_missing (cols : List String) :
    ∀ (s : List String) (c : String) (b : Bool) (m : List String),
      s.Nodup → c ∈ s → c ∉ cols → (∀ f ∈ s, f ≠ c → f ∈ cols) →
      s.foldl (schema_check_step cols) (b, m) = (false, m ++ [c]) := by
  intro s
  induction s with
  | nil => intro c b m _ hc; exact absurd hc (List.not_mem_nil c)
  | cons f rest ih =>
      intro c b m hnd hc hcnot hothers
      rcases List.mem_cons.mp hc with rfl | hcrest
      · simp only [List.foldl_cons, schema_check_step, if_neg hcnot]
        apply foldl_schema_all_present
        intro g hg
        exact hothers g (List.mem_cons_of_mem _ hg)
          fun h => (List.nodup_cons.mp hnd).1 (h ▸ hg)
      · have hfc : f ≠ c := fun h => (List.nodup_cons.mp hnd).1 (h ▸ hcrest)
        have hf : f ∈ cols := hothers f (List.mem_cons_self _ _) hfc
        simp only [List.foldl_cons, schema_check_step, if_pos hf]
        exact ih c b m (List.nodup_cons.mp hnd).2 hcrest hcnot
          fun g hg hgc => hothers g (List.mem_cons_of_mem _ hg) hgc

/-- Claim C9: a non-empty table missing exactly one expected column makes
`check_schema`, started with an empty missing-field record, return `false` with
exactly that column recorded. -/
theorem check_schema_one_missing (df : DF) (schema : List String) (c : String)
    (hne : df.empty = false) (hnd : schema.Nodup) (hc : c ∈ schema)
    (hcnot : c ∉ df.columns) (hothers : ∀ f ∈ schema, f ≠ c → f ∈ df.columns) :
    check_schema schema [] df = .ok (false, [c]) := by
  unfold check_schema
  rw [if_pos hne, foldl_schema_one_missing df.columns schema c true [] hnd hc hcnot hothers]
  rfl

theorem check_schema_one_missing_witness :
    check_schema ["a", "z"] [] ⟨["a", "b"], [["1", "2"]]⟩ = .ok (false, ["z"]) :=
  check_schema_one_missing ⟨["a", "b"], [["1", "2"]]⟩ ["a", "z"] "z"
    (by decide) (by decide) (by decide) (by decide) (by decide)

/-- Claim C10: schema validation only checks presence — a non-empty table whose
columns form a superset of the expected schema validates as `true`, extra
columns notwithstanding, and the missing-field record stays empty. -/
theorem check_schema_superset_true (df : DF) (schema : List String)
    (hne : df.empty = false) (hsub : ∀ f ∈ schema, f ∈ df.columns) :
    check_schema schema [] df = .ok (true, []) := by
  unfold check_schema
  rw [if_pos hne, foldl_schema_all_present df.columns schema (true, []) hsub]

theorem check_schema_superset_true_witness :
    check_schema ["a", "b"] [] ⟨["a", "b", "extra"], [["1", "2", "3"]]⟩ = .ok (true, []) :=
  check_schema_superset_true ⟨["a", "b", "extra"], [["1", "2", "3"]]⟩ ["a", "b"]
    (by decide) (by decide)

/-! ## Claims C3 and C4 — answer-header join predicates -/

/-- Numbered bridge aliases never collide with the fixed initial bridge name. -/
lemma join_answers_ne_initial (s : String) :
    "join_answers_" ++ s ≠ "initial_join_answers" := by
  intro h
  have h2 := congrArg String.data h
  rw [String.data_append] at h2
  have hj : ("join_answers_" : String).data
      = ['j', 'o', 'i', 'n', '_', 'a', 'n', 's', 'w', 'e', 'r', 's', '_'] := rfl
  have hi : ("initial_join_answers" : String).data
      = ['i', 'n', 'i', 't', 'i', 'a', 'l', '_', 'j', 'o', 'i', 'n', '_', 'a', 'n', 's', 'w',
         'e', 'r', 's'] := rfl
  rw [hj, hi] at h2
  simp at h2

/-- The bridge alias the `#Add Joins` loop computes at position `i0` from its
carried `join_count` (which equals `max 1 i0` there) is `data_conn i0`. -/
lemma dc_eq (i0 : Nat) :
    (if i0 = 0 then "initial_join_answers" else "join_answers_" ++ toString (max 1 i0))
      = data_conn i0 := by
  by_cases h : i0 = 0
  · subst h; rfl
  · have hm : max 1 i0 = i0 := by omega
    simp [data_conn, h, hm]

/-- The `join_count` handed to the rest of the loop from position `i0`. -/
lemma jc_eq (i0 : Nat) : (if i0 = 0 then max 1 i0 else max 1 i0 + 1) = max 1 (i0 + 1) := by
  by_cases h : i0 = 0
  · subst h; rfl
  · simp only [h, if_false, if_neg h]
    omega

/-- Any item of the join list contributes its `clause_at` block, at its own
position, somewhere inside the emitted join section. -/
lemma joins_decompose :
    ∀ (jl : List JoinItem) (i0 i : Nat) (item : JoinItem),
      jl.get? i = some item →
      ∃ pre post : String, joins_aux jl i0 (max 1 i0) = pre ++ clause_at item (i0 + i) ++ post := by
  intro jl
  induction jl with
  | nil => intro i0 i item h; simp [List.get?] at h
  | cons x rest ih =>
      intro i0 i item h
      cases i with
      | zero =>
          have hx : item = x := by simpa using h.symm
          subst hx
          refine ⟨"", joins_aux rest (i0 + 1) (max 1 (i0 + 1)), ?_⟩
          show join_clause item _ ++ joins_aux rest (i0 + 1) _ = _
          rw [dc_eq i0, jc_eq i0]
          have hpre : ("" : String) ++ clause_at item (i0 + 0) = clause_at item i0 := by
            simp [clause_at]
          rw [hpre]
          rfl
      | succ j =>
          have hrest : rest.get? j = some item := by simpa using h
          obtain ⟨pre, post, hp⟩ := ih (i0 + 1) j item hrest
          have hi : i0 + 1 + j = i0 + (j + 1) := by omega
          rw [hi] at hp
          refine ⟨join_clause x (data_conn i0) ++ pre, post, ?_⟩
          show join_clause x _ ++ joins_aux rest (i0 + 1) _ = _
          rw [dc_eq i0, jc_eq i0, hp]
          simp [String.append_assoc]

/-- Claim C3 (amended): the answer-header join for a `SINGLE` item, at any list
position, is emitted with the fixed literal alias `app` on the left of its
predicate — `app.id = bridge.application_id AND bridge.question_id = ...` —
independently of the alias declared in the source descriptor, which the join
loop never reads. -/
theorem single_join_uses_fixed_app_alias (jl : List JoinItem) (i : Nat) (item : JoinItem)
    (hget : jl.get? i = some item) (hsingle : item.single_or_repeat = "SINGLE") :
    ∃ pre post : String,
      join_section jl =
        pre ++ ("\nLEFT JOIN application_data_answer " ++ data_conn i ++ " ON app.id = " ++
          data_conn i ++ ".application_id AND " ++ data_conn i ++ ".question_id = " ++
          toString item.question_id ++
          "\nLEFT JOIN " ++ item.data_source ++ " " ++ item.name ++ " ON " ++ data_conn i ++
          ".id = " ++ item.name ++ ".answer_ptr_id\n") ++ post := by
  obtain ⟨pre, post, hp⟩ := joins_decompose jl 0 i item hget
  refine ⟨pre, post, ?_⟩
  show joins_aux jl 0 1 = _
  have h0 : joins_aux jl 0 1 = joins_aux jl 0 (max 1 0) := rfl
  rw [h0, hp]
  simp [clause_at, join_clause, hsingle]

theorem single_join_uses_fixed_app_alias_witness :
    ∃ pre post : String,
      join_section [exSingle] =
        pre ++ ("\nLEFT JOIN application_data_answer " ++ data_conn 0 ++ " ON app.id = " ++
          data_conn 0 ++ ".application_id AND " ++ data_conn 0 ++ ".question_id = " ++
          toString exSingle.question_id ++
          "\nLEFT JOIN " ++ exSingle.data_source ++ " " ++ exSingle.name ++ " ON " ++
          data_conn 0 ++ ".id = " ++ exSingle.name ++ ".answer_ptr_id\n") ++ post :=
  single_join_uses_fixed_app_alias [exSingle] 0 exSingle rfl rfl

set_option maxRecDepth 8192 in
/-- Claim C3 (counterexample): compiling with a source whose declared alias is
`src` still emits `app.id` in the answer-header join — the predicate with
`src.id` the claim prescribes is not what the compiler produces. -/
theorem single_join_ignores_declared_alias_cex :
    build_query (some cexSource) (some [exSingle]) none =
      .ok (some ("SELECT\n    src.application_number AS application_number,\n" ++
        "    hotel_name.value AS x\n\nFROM\n    applications_application src\n\n" ++
        "LEFT JOIN application_data_answer initial_join_answers ON app.id = " ++
        "initial_join_answers.application_id AND initial_join_answers.question_id = 10\n" ++
        "LEFT JOIN application_data_textboxanswer hotel_name ON initial_join_answers.id = " ++
        "hotel_name.answer_ptr_id\n\n WHERE \n    src.project_id = 34\n ORDER BY\nsrc.id;"))
    ∧ join_section [exSingle] ≠
      ("\nLEFT JOIN application_data_answer initial_join_answers ON src.id = " ++
        "initial_join_answers.application_id AND initial_join_answers.question_id = 10\n" ++
        "LEFT JOIN application_data_textboxanswer hotel_name ON initial_join_answers.id = " ++
        "hotel_name.answer_ptr_id\n") := by
  constructor
  · rfl
  · decide

/-- Claim C4: the answer-header join for a `REPEATING` item, at any list
position, correlates through the fixed initial bridge alias
`initial_join_answers`: its predicate reads
`initial_join_answers.repeating_answer_section_id = bridge.repeating_answer_section_id
AND bridge.question_id = ...`, and no non-initial bridge alias (in particular no
positional predecessor's `join_answers_<n>`) equals that fixed name. -/
theorem repeating_join_references_initial_bridge (jl : List JoinItem) (i : Nat)
    (item : JoinItem) (hget : jl.get? i = some item)
    (hrep : item.single_or_repeat = "REPEATING") :
    (∃ pre post : String,
      join_section jl =
        pre ++ ("\nLEFT JOIN application_data_answer " ++ data_conn i ++
          " ON initial_join_answers.repeating_answer_section_id = " ++ data_conn i ++
          ".repeating_answer_section_id AND " ++ data_conn i ++ ".question_id = " ++
          toString item.question_id ++
          "\nLEFT JOIN " ++ item.data_source ++ " " ++ item.name ++ " ON " ++ data_conn i ++
          ".id = " ++ item.name ++ ".answer_ptr_id\n") ++ post)
    ∧ data_conn 0 = "initial_join_answers"
    ∧ ∀ j : Nat, j ≠ 0 → data_conn j ≠ "initial_join_answers" := by
  refine ⟨?_, rfl, ?_⟩
  · obtain ⟨pre, post, hp⟩ := joins_decompose jl 0 i item hget
    refine ⟨pre, post, ?_⟩
    show joins_aux jl 0 1 = _
    have h0 : joins_aux jl 0 1 = joins_aux jl 0 (max 1 0) := rfl
    rw [h0, hp]
    simp [clause_at, join_clause, hrep]
  · intro j hj
    simp only [data_conn, if_neg hj]
    exact join_answers_ne_initial (toString j)

theorem repeating_join_references_initial_bridge_witness :
    (∃ pre post : String,
      join_section [exSingle, exRepeating] =
        pre ++ ("\nLEFT JOIN application_data_answer " ++ data_conn 1 ++
          " ON initial_join_answers.repeating_answer_section_id = " ++ data_conn 1 ++
          ".repeating_answer_section_id AND " ++ data_conn 1 ++ ".question_id = " ++
          toString exRepeating.question_id ++
          "\nLEFT JOIN " ++ exRepeating.data_source ++ " " ++ exRepeating.name ++ " ON " ++
          data_conn 1 ++ ".id = " ++ exRepeating.name ++ ".answer_ptr_id\n") ++ post)
    ∧ data_conn 0 = "initial_join_answers"
    ∧ ∀ j : Nat, j ≠ 0 → data_conn j ≠ "initial_join_answers" :=
  repeating_join_references_initial_bridge [exSingle, exRepeating] 1 exRepeating rfl rfl

/-! ## Claims C7 and C8 — archive rotation -/

lemma folder_dates_ok :
    ∀ (fs : List Folder), (∀ f ∈ fs, f.objects ≠ []) →
      folder_dates fs = .ok (fs.map fun f => (f.key, oldestTime f)) := by
  intro fs
  induction fs with
  | nil => intro _; rfl
  | cons f rest ih =>
      intro h
      have hf := h f (List.mem_cons_self f rest)
      cases hobj : f.objects with
      | nil => exact absurd hobj hf
      | cons t ts =>
          have hrest := ih fun g hg => h g (List.mem_cons_of_mem f hg)
          have hold : oldestTime f = ts.foldl Nat.min t := by
            unfold oldestTime
            rw [hobj]
          rw [folder_dates, hobj, hrest, List.map_cons, hold]

lemma mergeSort_head_min {l : List (String × Nat)} {d : String × Nat}
    {rest : List (String × Nat)}
    (h : l.mergeSort (fun a b => a.2 ≤ b.2) = d :: rest) :
    d ∈ l ∧ ∀ e ∈ l, d.2 ≤ e.2 := by
  have hperm : (d :: rest).Perm l := by
    rw [← h]
    exact List.mergeSort_perm l _
  refine ⟨hperm.subset (List.mem_cons_self d rest), ?_⟩
  intro e he
  have htrans : ∀ a b c : String × Nat,
      (decide (a.2 ≤ b.2)) = true → (decide (b.2 ≤ c.2)) = true →
        (decide (a.2 ≤ c.2)) = true := by
    intro a b c hab hbc
    simp only [decide_eq_true_eq] at hab hbc ⊢
    omega
  have htotal : ∀ a b : String × Nat,
      ((decide (a.2 ≤ b.2)) || (decide (b.2 ≤ a.2))) = true := by
    intro a b
    rcases Nat.le_total a.2 b.2 with hle | hle <;> simp [hle]
  have hs := @List.sorted_mergeSort (String × Nat) (fun a b => decide (a.2 ≤ b.2))
    htrans htotal l
  rw [h] at hs
  rcases List.mem_cons.mp (hperm.mem_iff.mpr he) with rfl | hr
  · exact Nat.le_refl _
  · have hd := (List.pairwise_cons.mp hs).1 e hr
    simpa using hd

/-- Under the loop guard, the selection of `oldest_folder_key` succeeds and
returns the key of a listed sub-folder whose oldest object is no later than any
other's. -/
lemma select_oldest_spec (subfolders : List Folder)
    (hobj : ∀ f ∈ subfolders, f.objects ≠ []) (hne : subfolders ≠ []) :
    ∃ f ∈ subfolders, select_oldest subfolders = .ok f.key
      ∧ ∀ g ∈ subfolders, oldestTime f ≤ oldestTime g := by
  have hfd := folder_dates_ok subfolders hobj
  cases hms : (subfolders.map fun f => (f.key, oldestTime f)).mergeSort
      (fun a b => a.2 ≤ b.2) with
  | nil =>
      exfalso
      have hl := congrArg List.length hms
      rw [List.length_mergeSort, List.length_map] at hl
      simp at hl
      exact hne hl
  | cons d rest =>
      obtain ⟨hdmem, hdle⟩ := mergeSort_head_min hms
      obtain ⟨f, hfmem, hfe⟩ := List.mem_map.mp hdmem
      refine ⟨f, hfmem, ?_, ?_⟩
      · unfold select_oldest
        rw [hfd]
        show select_head (subfolders.map fun f => (f.key, oldestTime f)) = .ok f.key
        unfold select_head
        rw [hms]
        show Except.ok d.1 = Except.ok f.key
        rw [← hfe]
      · intro g hg
        have hdg : d.2 ≤ oldestTime g := hdle _ (List.mem_map_of_mem _ hg)
        have hfd2 : oldestTime f = d.2 := by rw [← hfe]
        omega

/-- Deleting a listed key with a unique key drops exactly one sub-folder. -/
lemma filter_key_length :
    ∀ (fs : List Folder) (f : Folder), f ∈ fs → (fs.map Folder.key).Nodup →
      (fs.filter fun g => g.key ≠ f.key).length + 1 = fs.length := by
  intro fs
  induction fs with
  | nil => intro f hf _; exact absurd hf (List.not_mem_nil f)
  | cons g rest ih =>
      intro f hf hnd
      rw [List.map_cons, List.nodup_cons] at hnd
      by_cases hk : g.key = f.key
      · rw [List.filter_cons]
        have hc : (decide (g.key ≠ f.key)) = false := by simp [hk]
        rw [hc, if_neg (by decide)]
        have hall : rest.filter (fun g2 => decide (g2.key ≠ f.key)) = rest := by
          rw [List.filter_eq_self]
          intro r hr
          simp only [decide_eq_true_eq]
          intro hrk
          have hmem : r.key ∈ rest.map Folder.key := List.mem_map_of_mem _ hr
          rw [hrk, ← hk] at hmem
          exact hnd.1 hmem
        rw [hall]
        simp
      · rw [List.filter_cons]
        have hc : (decide (g.key ≠ f.key)) = true := by simp [hk]
        rw [hc, if_pos rfl]
        have hfrest : f ∈ rest := by
          rcases List.mem_cons.mp hf with rfl | hr
          · exact absurd rfl hk
          · exact hr
        have hrec := ih f hfrest hnd.2
        simp only [List.length_cons]
        omega

/-- One pass of the loop under the guard, with the selected key: delete, then
either crash on an emptied re-listing (line 309) or loop on. -/
lemma rotation_go_step {σ : Type} (store : S3Store σ) (limit fuel : Nat)
    (subfolders : List Folder) (state : σ) (deleted : List String) (key : String)
    (hgt : subfolders.length > limit)
    (hsel : select_oldest subfolders = .ok key) :
    rotation_go store limit (fuel + 1) subfolders state deleted
      = (if store.listSubfolders (store.deleteObject state key) = []
         then .keyError (deleted ++ [key])
         else rotation_go store limit fuel
           (store.listSubfolders (store.deleteObject state key))
           (store.deleteObject state key) (deleted ++ [key])) := by
  rw [rotation_go, if_pos hgt, hsel]

/-- Once the count is back within the limit the loop exits with the state and
deletion log unchanged, whatever fuel remains. -/
lemma rotation_go_done {σ : Type} (store : S3Store σ) (limit fuel : Nat)
    (subfolders : List Folder) (state : σ) (deleted : List String)
    (hng : ¬ subfolders.length > limit) :
    rotation_go store limit fuel subfolders state deleted = .ok state deleted := by
  cases fuel with
  | zero => rw [rotation_go, if_neg hng]
  | succ fuel2 => rw [rotation_go, if_neg hng]

/-- Against the faithful store, `k + 1` excess sub-folders within the fuel
allowance are removed by exactly `k + 1` oldest-first deletions; with a
positive limit the loop then exits normally, while with limit 0 the last
deletion empties the archive and the line-309 re-listing crashes with the
`KeyError`. -/
lemma rotation_go_completes (limit : Nat) :
    ∀ (k : Nat) (folders : List Folder) (fuel : Nat) (deleted : List String),
      folders.length = limit + (k + 1) → k + 1 ≤ fuel →
      (∀ f ∈ folders, f.objects ≠ []) →
      (folders.map Folder.key).Nodup →
      ∃ ds, ds.length = k + 1 ∧ StepwiseEarliest folders ds ∧
        (1 ≤ limit → ∃ final,
          rotation_go faithful_store limit fuel folders folders deleted
            = .ok final (deleted ++ ds)) ∧
        (limit = 0 →
          rotation_go faithful_store limit fuel folders folders deleted
            = .keyError (deleted ++ ds)) := by
  intro k
  induction k with
  | zero =>
      intro folders fuel deleted hlen hfuel hobj hnd
      cases fuel with
      | zero => exact absurd hfuel (by omega)
      | succ fuel2 =>
          have hgt : folders.length > limit := by omega
          have hne : folders ≠ [] := by
            intro h0
            rw [h0] at hlen
            simp only [List.length_nil] at hlen
            omega
          obtain ⟨f, hfmem, hsel, hmin⟩ := select_oldest_spec folders hobj hne
          have hlen2 : (folders.filter fun g => g.key ≠ f.key).length + 1 = folders.length :=
            filter_key_length folders f hfmem hnd
          refine ⟨[f.key], rfl,
            StepwiseEarliest.cons folders f [] hfmem hmin (StepwiseEarliest.nil _), ?_, ?_⟩
          · intro hlim
            refine ⟨faithful_store.deleteObject folders f.key, ?_⟩
            rw [rotation_go_step faithful_store limit fuel2 folders folders deleted f.key
              hgt hsel]
            have hcond : ¬ faithful_store.listSubfolders
                (faithful_store.deleteObject folders f.key) = [] := by
              show ¬ (folders.filter fun g => g.key ≠ f.key) = []
              intro h0
              rw [h0] at hlen2
              simp only [List.length_nil] at hlen2
              omega
            rw [if_neg hcond]
            exact rotation_go_done faithful_store limit fuel2 _ _ _ (by
              show ¬ (folders.filter fun g => g.key ≠ f.key).length > limit
              omega)
          · intro hlim0
            rw [rotation_go_step faithful_store limit fuel2 folders folders deleted f.key
              hgt hsel]
            have hcond : faithful_store.listSubfolders
                (faithful_store.deleteObject folders f.key) = ([] : List Folder) := by
              show (folders.filter fun g => g.key ≠ f.key) = []
              have hz : (folders.filter fun g => g.key ≠ f.key).length = 0 := by omega
              exact List.length_eq_zero.mp hz
            rw [if_pos hcond]
  | succ k ih =>
      intro folders fuel deleted hlen hfuel hobj hnd
      cases fuel with
      | zero => exact absurd hfuel (by omega)
      | succ fuel2 =>
          have hgt : folders.length > limit := by omega
          have hne : folders ≠ [] := by
            intro h0
            rw [h0] at hlen
            simp only [List.length_nil] at hlen
            omega
          obtain ⟨f, hfmem, hsel, hmin⟩ := select_oldest_spec folders hobj hne
          set folders2 := folders.filter fun g => g.key ≠ f.key
          have hlen2 : folders2.length + 1 = folders.length :=
            filter_key_length folders f hfmem hnd
          have hobj2 : ∀ g ∈ folders2, g.objects ≠ [] := fun g hg =>
            hobj g ((List.filter_sublist folders).subset hg)
          have hnd2 : (folders2.map Folder.key).Nodup :=
            ((List.filter_sublist folders).map Folder.key).nodup hnd
          obtain ⟨ds, hdslen, hstep, hok, hkez⟩ :=
            ih folders2 fuel2 (deleted ++ [f.key]) (by omega) (by omega) hobj2 hnd2
          have hcond : ¬ faithful_store.listSubfolders
              (faithful_store.deleteObject folders f.key) = [] := by
            show ¬ folders2 = []
            intro h0
            rw [h0] at hlen2
            simp only [List.length_nil] at hlen2
            omega
          have happ : deleted ++ [f.key] ++ ds = deleted ++ (f.key :: ds) := by simp
          refine ⟨f.key :: ds, by simp [hdslen],
            StepwiseEarliest.cons folders f ds hfmem hmin hstep, ?_, ?_⟩
          · intro hlim
            obtain ⟨final, hfin⟩ := hok hlim
            refine ⟨final, ?_⟩
            rw [rotation_go_step faithful_store limit fuel2 folders folders deleted f.key
              hgt hsel, if_neg hcond, ← happ]
            exact hfin
          · intro hlim0
            have hfin := hkez hlim0
            rw [rotation_go_step faithful_store limit fuel2 folders folders deleted f.key
              hgt hsel, if_neg hcond, ← happ]
            exact hfin

/-- Against any store that keeps more than `limit` non-empty sub-folders listed
(tracked through an invariant `I` over the remaining fuel), the loop deletes
once per unit of fuel and ends stuck. -/
lemma rotation_go_stuck {σ : Type} (store : S3Store σ) (limit : Nat) (I : Nat → σ → Prop)
    (hcount : ∀ fuel s, I fuel s → limit < (store.listSubfolders s).length)
    (hobjI : ∀ fuel s, I fuel s → ∀ f ∈ store.listSubfolders s, f.objects ≠ [])
    (hdel : ∀ fuel s key, I (fuel + 1) s →
      key ∈ (store.listSubfolders s).map Folder.key → I fuel (store.deleteObject s key)) :
    ∀ (fuel : Nat) (state : σ) (deleted : List String), I fuel state →
      ∃ ds, rotation_go store limit fuel (store.listSubfolders state) state deleted
          = .stuck (deleted ++ ds) ∧ ds.length = fuel := by
  intro fuel
  induction fuel with
  | zero =>
      intro state deleted hI
      refine ⟨[], ?_, rfl⟩
      rw [rotation_go, if_pos (hcount 0 state hI)]
      simp
  | succ fuel2 ih =>
      intro state deleted hI
      have hgt := hcount _ _ hI
      have hne : store.listSubfolders state ≠ [] := by
        intro h0
        rw [h0] at hgt
        simp at hgt
      obtain ⟨f, hfmem, hsel, _⟩ :=
        select_oldest_spec (store.listSubfolders state) (hobjI _ _ hI) hne
      have hkey : f.key ∈ (store.listSubfolders state).map Folder.key :=
        List.mem_map_of_mem _ hfmem
      obtain ⟨ds, heq, hdslen⟩ := ih (store.deleteObject state f.key) (deleted ++ [f.key])
        (hdel fuel2 state f.key hI hkey)
      refine ⟨f.key :: ds, ?_, by simp [hdslen]⟩
      rw [rotation_go_step store limit fuel2 (store.listSubfolders state) state deleted
        f.key hgt hsel]
      have hcond : ¬ store.listSubfolders (store.deleteObject state f.key) = [] := by
        intro h0
        have hc2 := hcount fuel2 _ (hdel fuel2 state f.key hI hkey)
        rw [h0] at hc2
        simp at hc2
      rw [if_neg hcond]
      have hfin : deleted ++ [f.key] ++ ds = deleted ++ (f.key :: ds) := by simp
      rw [← hfin]
      exact heq

/-- Claim C7 (amended): over a faithfully-reflecting store, an archive state of
`limit + k` non-empty sub-folders with distinct keys, for `0 < k ≤ 150` (the
iteration allowance), sees exactly `k` deletions, each removing a sub-folder
whose oldest object is no later than that of any sub-folder still present at
that step.  With `limit ≥ 1` the call then completes normally; with `limit = 0`
the `k`-th deletion empties the archive and the unguarded re-listing at line
309 crashes with a `KeyError` after those `k` deletions.  For `k` beyond the
allowance the loop raises the stuck error instead (see the counterexample). -/
theorem rotation_exact_deletions (folders : List Folder) (limit k : Nat)
    (hlen : folders.length = limit + k) (hk : 0 < k) (hbound : k ≤ max_iterations)
    (hobjF : ∀ f ∈ folders, f.objects ≠ [])
    (hkeys : (folders.map Folder.key).Nodup) :
    ∃ ds, ds.length = k ∧ StepwiseEarliest folders ds ∧
      (1 ≤ limit → ∃ final,
        monitor_and_maintain_archive_limit faithful_store limit folders = .ok final ds) ∧
      (limit = 0 →
        monitor_and_maintain_archive_limit faithful_store limit folders = .keyError ds) := by
  obtain ⟨k2, rfl⟩ : ∃ k2, k = k2 + 1 := ⟨k - 1, by omega⟩
  obtain ⟨ds, hdslen, hstep, hok, hkez⟩ :=
    rotation_go_completes limit k2 folders max_iterations [] hlen hbound hobjF hkeys
  have hmon : monitor_and_maintain_archive_limit faithful_store limit folders
      = rotation_go faithful_store limit max_iterations folders folders [] := by
    show (if (faithful_store.listSubfolders folders).length > 0
      then rotation_go faithful_store limit max_iterations
        (faithful_store.listSubfolders folders) folders []
      else .ok folders []) = _
    rw [if_pos (by show folders.length > 0; omega)]
    rfl
  refine ⟨ds, hdslen, hstep, ?_, ?_⟩
  · intro hlim
    obtain ⟨final, hfin⟩ := hok hlim
    refine ⟨final, ?_⟩
    rw [hmon]
    simpa using hfin
  · intro hlim0
    have hfin := hkez hlim0
    rw [hmon]
    simpa using hfin

theorem rotation_exact_deletions_witness :
    ∃ ds, ds.length = 2 ∧ StepwiseEarliest demo_folders ds ∧
      (1 ≤ 1 → ∃ final,
        monitor_and_maintain_archive_limit faithful_store 1 demo_folders = .ok final ds) ∧
      ((1 : Nat) = 0 →
        monitor_and_maintain_archive_limit faithful_store 1 demo_folders = .keyError ds) :=
  rotation_exact_deletions demo_folders 1 2 (by decide) (by decide) (by decide)
    (by decide) (by decide)

/-- Claim C7 (counterexample): an archive state of `limit + k` sub-folders with
`limit = 0` and `k = max_iterations + 1 = 151` — every sub-folder non-empty,
keys distinct, deletions faithfully reflected — is not rotated with `k`
deletions: the loop stops stuck after only `max_iterations = 150` of them. -/
theorem rotation_beyond_bound_cex :
    ∃ ds, monitor_and_maintain_archive_limit faithful_store 0 stuck_folders = .stuck ds
      ∧ ds.length = max_iterations := by
  have hlen0 : stuck_folders.length = max_iterations + 1 := by
    simp [stuck_folders]
  have hobj0 : ∀ f ∈ stuck_folders, f.objects ≠ [] := by
    intro f hf
    simp [stuck_folders] at hf
    obtain ⟨i, _, rfl⟩ := hf
    simp
  have hnd0 : (stuck_folders.map Folder.key).Nodup := by
    have hmap : stuck_folders.map Folder.key
        = (List.range (max_iterations + 1)).map
            fun i => String.mk (List.replicate (i + 1) 'a') := by
      simp [stuck_folders, List.map_map, Function.comp_def]
    rw [hmap]
    refine List.Nodup.map ?_ (List.nodup_range _)
    intro a b hab
    have hlenr := congrArg (fun s => s.data.length) hab
    simp [List.length_replicate] at hlenr
    omega
  obtain ⟨ds, heq, hdslen⟩ := rotation_go_stuck faithful_store 0
    (fun fuel s => s.length = 1 + fuel ∧ (∀ f ∈ s, f.objects ≠ []) ∧
      (s.map Folder.key).Nodup)
    (fun fuel s hI => by
      obtain ⟨h1, _, _⟩ := hI
      show 0 < s.length
      omega)
    (fun fuel s hI => hI.2.1)
    (fun fuel s key hI hkey => by
      obtain ⟨h1, h2, h3⟩ := hI
      obtain ⟨f, hfmem, hfk⟩ := List.mem_map.mp hkey
      subst hfk
      refine ⟨?_, ?_, ?_⟩
      · have hfl := filter_key_length s f hfmem h3
        show (s.filter fun g => g.key ≠ f.key).length = 1 + fuel
        omega
      · intro g hg
        exact h2 g ((List.filter_sublist s).subset hg)
      · exact ((List.filter_sublist s).map Folder.key).nodup h3)
    max_iterations stuck_folders [] ⟨by omega, hobj0, hnd0⟩
  refine ⟨ds, ?_, hdslen⟩
  show (if (faithful_store.listSubfolders stuck_folders).length > 0
    then rotation_go faithful_store 0 max_iterations
      (faithful_store.listSubfolders stuck_folders) stuck_folders []
    else .ok stuck_folders []) = .stuck ds
  rw [if_pos (by show stuck_folders.length > 0; omega)]
  simpa using heq

/-- Claim C8: against any object-store behavior whose listings always show more
than `limit` sub-folders (each non-empty) — for instance a store that never
reflects deletions — one rotation call terminates with the stuck error after
performing exactly `max_iterations` deletions, and no more. -/
theorem rotation_stuck_at_bound {σ : Type} (store : S3Store σ) (limit : Nat) (s0 : σ)
    (hcount : ∀ s, limit < (store.listSubfolders s).length)
    (hobjS : ∀ s, ∀ f ∈ store.listSubfolders s, f.objects ≠ []) :
    ∃ ds, monitor_and_maintain_archive_limit store limit s0 = .stuck ds
      ∧ ds.length = max_iterations := by
  obtain ⟨ds, heq, hdslen⟩ := rotation_go_stuck store limit (fun _ _ => True)
    (fun _ s _ => hcount s) (fun _ s _ => hobjS s) (fun _ _ _ _ _ => trivial)
    max_iterations s0 [] trivial
  refine ⟨ds, ?_, hdslen⟩
  show (if (store.listSubfolders s0).length > 0
    then rotation_go store limit max_iterations (store.listSubfolders s0) s0 []
    else .ok s0 []) = .stuck ds
  rw [if_pos (Nat.lt_of_le_of_lt (Nat.zero_le limit) (hcount s0))]
  simpa using heq

theorem rotation_stuck_at_bound_witness :
    ∃ ds, monitor_and_maintain_archive_limit stuckStore 0 () = .stuck ds
      ∧ ds.length = max_iterations :=
  rotation_stuck_at_bound stuckStore 0 ()
    (fun s => by cases s; decide)
    (fun s f hf => by
      have hfv : f = { key := "A", objects := [0] } := by
        simpa [stuckStore] using hf
      rw [hfv]
      decide)
